import Mathlib

/-!
Verification of the setsolver core (setsolver.py) against its specification.

The Python code is shallowly embedded as executable Lean definitions:

* Python dictionaries become association lists (`List (String × β)`) with
  dictionary-style lookup (`dlookup`) and assignment (`dictUpdate`).
* Python `set` values become deduplicated lists compared by membership.
* Code that can raise an exception (`TypeError` from `len(None)`,
  `KeyError` from a missing dictionary key, `AttributeError` from
  `None.append`) is modelled in `Option`: `none` is a raised exception.
* `is_set` returns `False` or a dictionary in Python; `is_feature_a_set`
  returns `"Same"`, `"Different"` or `False`.  These become the inductives
  `SetResult` (with an extra `keyError` constructor for the exceptional
  path) and `FeatureMatch`.
-/

/-- Dictionary lookup on an association list: first binding wins, `none`
models a `KeyError` site (callers decide whether the key is known present). -/
def dlookup {β : Type} : List (String × β) → String → Option β
  | [], _ => none
  | p :: rest, k => if p.1 = k then some p.2 else dlookup rest k

/-- Dictionary assignment `d[k] = v`: replaces the binding when the key is
present, appends a new binding otherwise (Python dicts keep insertion order). -/
def dictUpdate {β : Type} (d : List (String × β)) (k : String) (v : β) : List (String × β) :=
  if k ∈ d.map Prod.fst then
    d.map (fun p => if p.1 = k then (k, v) else p)
  else d ++ [(k, v)]

/-- Python `set(a).difference(set(b))`, as a deduplicated list. -/
def pySetDiff (a b : List String) : List String :=
  a.dedup.filter (fun x => decide (x ∉ b))

/-- Result of `is_feature_a_set`: `"Same"`, `"Different"`, or the falsy
sentinel `False`. -/
inductive FeatureMatch where
  | same
  | different
  | notAMatch
deriving DecidableEq

/-- Embeds `is_feature_a_set(*feat_values)`: `collapse = set(feat_values)`
has one distinct value → Same; as many distinct values as arguments →
Different; otherwise the falsy sentinel. -/
def is_feature_a_set (feat_values : List String) : FeatureMatch :=
  let collapse := feat_values.dedup
  if collapse.length = 1 then FeatureMatch.same
  else if collapse.length = feat_values.length then FeatureMatch.different
  else FeatureMatch.notAMatch

/-- A card: the Python `features` dictionary, as an ordered association list. -/
structure Card where
  features : List (String × String)
deriving DecidableEq

/-- Embeds `Card.get_feature_names`: the dictionary keys, in order. -/
def Card.get_feature_names (c : Card) : List String := c.features.map Prod.fst

/-- The second argument of `Card.compatible` is a card or a bare list of
feature names; this mirrors the `isinstance` dispatch. -/
def otherNames : Sum Card (List String) → List String
  | Sum.inl c => c.get_feature_names
  | Sum.inr names => names

/-- Embeds `Card.compatible`: true iff
`len(set(first).symmetric_difference(set(second))) == 0`. -/
def Card.compatible (firstCard : Card) (secondCardOrFeatures : Sum Card (List String)) : Bool :=
  (pySetDiff firstCard.get_feature_names (otherNames secondCardOrFeatures) ++
    pySetDiff (otherNames secondCardOrFeatures) firstCard.get_feature_names).isEmpty

/-- Embeds `Card.__eq__`: compatibility first, then every feature of the
first card must map to an equal value in the second. -/
def cardEq (firstCard SecondCard : Card) : Bool :=
  if Card.compatible firstCard (Sum.inl SecondCard) then
    firstCard.features.all (fun p =>
      dlookup firstCard.features p.1 == dlookup SecondCard.features p.1)
  else false

/-- Result of `is_set`: the falsy sentinel `False`, a dictionary of match
types, or a raised `KeyError` (possible when the cards are not compatible). -/
inductive SetResult where
  | keyError
  | noMatch
  | isMatch (set_types : List (String × FeatureMatch))
deriving DecidableEq

/-- The list comprehension `[card.features[feat] for card in cards]`:
`none` when some card lacks the key (a `KeyError`). -/
def colVals (cards : List Card) (feat : String) : Option (List String) :=
  match cards with
  | [] => some []
  | card :: rest =>
    match dlookup card.features feat, colVals rest feat with
    | some v, some vs => some (v :: vs)
    | _, _ => none

/-- The feature loop of `is_set`: classify each feature column in turn,
returning `False` at the first non-matching feature and otherwise
accumulating `set_types[feat] = set_type`. -/
def is_set_loop (cards : List Card) (feats : List String)
    (set_types : List (String × FeatureMatch)) : SetResult :=
  match feats with
  | [] => SetResult.isMatch set_types
  | feat :: rest =>
    match colVals cards feat with
    | none => SetResult.keyError
    | some vals =>
      match is_feature_a_set vals with
      | FeatureMatch.notAMatch => SetResult.noMatch
      | t => is_set_loop cards rest (dictUpdate set_types feat t)

/-- Embeds `is_set(*cards)`: no cards is never a set; otherwise iterate
over the first card's feature names. -/
def is_set (cards : List Card) : SetResult :=
  match cards with
  | [] => SetResult.noMatch
  | c0 :: _ => is_set_loop cards c0.get_feature_names []

/-- Embeds the `CardSet` record: cards, optional deck positions, and the
`set_types` slot (always `None` as constructed by `CardSet.__init__`). -/
structure CardSet where
  cards : List Card
  card_positions : Option (List Nat)
  set_types : Option (List (String × FeatureMatch))
deriving DecidableEq

/-- Embeds `CardSet.__init__(cards, positions)`: `set_types` starts `None`. -/
def CardSet.init (cards : List Card) (positions : Option (List Nat)) : CardSet :=
  ⟨cards, positions, none⟩

/-- Embeds the `CardDeck` state.  `features` and `cards` are `Option`s
because `CardDeck.__init__` sets them to `None`. -/
structure CardDeck where
  features : Option (List String)
  cards : Option (List Card)
  sets : List CardSet
  feature_values : List (String × List String)
  comments : List String
deriving DecidableEq

/-- Embeds `CardDeck.__init__()` without a file to load. -/
def CardDeck.init : CardDeck := ⟨none, none, [], [], []⟩

/-- Embeds `CardDeck.add_card`.  `len(self.features)` raises `TypeError`
when `features` is `None`, and `self.cards.append` raises `AttributeError`
when `cards` is `None`; both exceptional paths are `none`. -/
def add_card (deck : CardDeck) (card : Card) : Option (CardDeck × Bool) :=
  match deck.features with
  | none => none
  | some feats =>
    if feats.length = 0 then
      match deck.cards with
      | none => none
      | some cs => some ({ deck with features := some card.get_feature_names,
                                     cards := some (cs ++ [card]) }, true)
    else if Card.compatible card (Sum.inr feats) then
      match deck.cards with
      | none => none
      | some cs => some ({ deck with cards := some (cs ++ [card]) }, true)
    else some (deck, false)

/-- Embeds the recursive generator `CardDeck.generate_card_combos`, with
the lazily yielded sequence materialised as a list in yield order. -/
def generate_card_combos {α : Type} [Inhabited α] : List α → Nat → List (List α)
  | _, 0 => [[]]
  | items, nitems + 1 =>
    (List.range items.length).flatMap (fun i =>
      (generate_card_combos (items.drop (i + 1)) nitems).map
        (fun item => items.getD i default :: item))

/-- Embeds `CardDeck.card_position_combos`: drive the generator over
`range(len(self.cards))`; `none` when `cards` is `None`. -/
def card_position_combos (deck : CardDeck) (setsize : Nat) : Option (List (List Nat)) :=
  deck.cards.map (fun cs => generate_card_combos (List.range cs.length) setsize)

/-- Out-of-range indexing default; position combos never go out of range. -/
def defaultCard : Card := ⟨[]⟩

/-- Embeds `CardDeck.solve`: reset `self.sets`, enumerate the position
combinations, keep a `CardSet` record for every combination whose
`is_set` result passes the `if set_match:` truthiness test — `False` is
falsy and so is an empty classification dictionary, so a result of `{}`
(possible only when the lead card has zero features) is skipped exactly
like a non-match.  A `KeyError` escaping `is_set` aborts the whole call
(`none`); the advisory size-versus-feature-count warning has no effect on
the result but reading `len(self.features)` requires `features` to be
non-`None`. -/
def solve (deck : CardDeck) (setsize : Nat) : Option (CardDeck × List CardSet) :=
  match deck.features, deck.cards with
  | some _feats, some cards =>
    ((generate_card_combos (List.range cards.length) setsize).foldlM
      (fun (acc : List CardSet) (combo : List Nat) =>
        match is_set (combo.map (fun position => cards.getD position defaultCard)) with
        | SetResult.keyError => none
        | SetResult.noMatch => some acc
        | SetResult.isMatch [] => some acc
        | SetResult.isMatch _ =>
          some (acc ++ [CardSet.init
            (combo.map (fun position => cards.getD position defaultCard)) (some combo)]))
      []).map (fun newSets => ({ deck with sets := newSets }, newSets))
  | _, _ => none

/-- Python `dict(zip(keys, vals))`: insertion order, last binding wins. -/
def dictZip (keys vals : List String) : List (String × String) :=
  (List.zip keys vals).foldl (fun d kv => dictUpdate d kv.1 kv.2) []

/-- Python `line.strip()`: drop whitespace from both ends, modelled on the
character list so it evaluates inside the kernel. -/
def pyStrip (s : String) : String :=
  ⟨((s.data.dropWhile Char.isWhitespace).reverse.dropWhile Char.isWhitespace).reverse⟩

/-- Splits a character list at every tab character. -/
def splitTabChars : List Char → List (List Char)
  | [] => [[]]
  | c :: rest =>
    if c = '\t' then [] :: splitTabChars rest
    else
      match splitTabChars rest with
      | [] => [[c]]
      | group :: groups => (c :: group) :: groups

/-- Python `line.split("\t")`. -/
def pySplitTab (s : String) : List String :=
  (splitTabChars s.data).map (fun cs => ⟨cs⟩)

/-- The distinct-value accumulation in `load_file`:
`self.feature_values[feat].add(value) if value not in ...`. -/
def add_feature_value (fv : List (String × List String)) (feat value : String) :
    List (String × List String) :=
  if value ∈ (dlookup fv feat).getD [] then fv
  else dictUpdate fv feat ((dlookup fv feat).getD [] ++ [value])

/-- Embeds one iteration of the `load_file` line loop: comments and blank
lines are collected, the first data line becomes the feature header, a
data line of the wrong width is skipped, and any other data line becomes a
card whose values are added to `feature_values`. -/
def load_line (deck : CardDeck) (rawLine : String) : CardDeck :=
  let line := pyStrip rawLine
  if line.data.length = 0 ∨ line.data.head? = some '#' then
    { deck with comments := deck.comments ++ [line] }
  else
    let fields := pySplitTab line
    if (deck.features.getD []).isEmpty then
      { deck with features := some fields,
                  feature_values := fields.foldl (fun fv feat => dictUpdate fv feat [])
                    deck.feature_values }
    else
      let feats := deck.features.getD []
      if fields.length ≠ feats.length then deck
      else
        let card_features := dictZip feats fields
        { deck with cards := some ((deck.cards.getD []) ++ [Card.mk card_features]),
                    feature_values := card_features.foldl
                      (fun fv p => add_feature_value fv p.1 p.2) deck.feature_values }

/-- Embeds `CardDeck.load_file`, taking the file's lines: `cards`,
`features` and `comments` are reset, then each line is processed. -/
def load_file (deck : CardDeck) (fileLines : List String) : CardDeck :=
  fileLines.foldl load_line { deck with cards := some [], features := none, comments := [] }

/-- The per-feature distinct-value invariant claimed of the deck: every
feature value of every card in the deck is recorded in the deck's
`feature_values` entry for that feature. -/
def deckInv (deck : CardDeck) : Prop :=
  ∀ card ∈ deck.cards.getD [], ∀ p ∈ card.features,
    p.2 ∈ (dlookup deck.feature_values p.1).getD []

/-- The classification of one feature's column across a group. -/
def classifyColumn (cards : List Card) (f : String) : Option FeatureMatch :=
  (colVals cards f).map (fun vals => is_feature_a_set vals)

/-- Python truthiness of an `is_set` result, as tested by `if set_match:`
in `solve`: `False` is falsy, and a classification dictionary is truthy
iff it is non-empty. -/
def SetResult.truthy : SetResult → Bool
  | SetResult.isMatch [] => false
  | SetResult.isMatch _ => true
  | _ => false

/-- Modelled from the spec (section 4.5), with the amendments forced by
the code: the result collection holds one record per combination whose
matcher result is truthy — a non-empty classification mapping; an empty
mapping, which arises only for a zero-feature lead card, is falsy in
Python and is skipped like a non-match — in generator order, each record
holding the positions and the referenced cards; the record's
classification slot is `none` because `CardSet.__init__` never receives
the matcher's mapping. -/
def solveSpecSets (cards : List Card) (k : Nat) : List CardSet :=
  (generate_card_combos (List.range cards.length) k).filterMap (fun combo =>
    match is_set (combo.map (fun position => cards.getD position defaultCard)) with
    | SetResult.isMatch [] => none
    | SetResult.isMatch _ => some (CardSet.init
        (combo.map (fun position => cards.getD position defaultCard)) (some combo))
    | _ => none)

/-! ### Dictionary lemmas -/

theorem dlookup_isSome_iff {β : Type} (d : List (String × β)) (k : String) :
    (dlookup d k).isSome = true ↔ k ∈ d.map Prod.fst := by
  induction d with
  | nil => simp [dlookup]
  | cons p rest ih =>
    by_cases h : p.1 = k
    · simp [dlookup, h]
    · have : ¬ k = p.1 := fun hk => h hk.symm
      simp [dlookup, h, ih, this]

theorem dlookup_eq_none_iff {β : Type} (d : List (String × β)) (k : String) :
    dlookup d k = none ↔ k ∉ d.map Prod.fst := by
  rw [← dlookup_isSome_iff, ← Option.not_isSome_iff_eq_none]

theorem dlookup_append_of_not_mem {β : Type} (d1 d2 : List (String × β)) (k : String)
    (h : k ∉ d1.map Prod.fst) : dlookup (d1 ++ d2) k = dlookup d2 k := by
  induction d1 with
  | nil => simp
  | cons p rest ih =>
    simp only [List.map_cons, List.mem_cons, not_or] at h
    have hp : ¬ p.1 = k := fun hk => h.1 hk.symm
    simpa [dlookup, hp] using ih h.2

theorem dlookup_map_replace_self {β : Type} (d : List (String × β)) (k : String) (v : β)
    (hk : k ∈ d.map Prod.fst) :
    dlookup (d.map (fun p => if p.1 = k then (k, v) else p)) k = some v := by
  induction d with
  | nil => simp at hk
  | cons p rest ih =>
    by_cases h : p.1 = k
    · simp [dlookup, h]
    · have : ¬ k = p.1 := fun hkk => h hkk.symm
      simp only [List.map_cons, List.mem_cons, this, false_or] at hk
      simpa [dlookup, h] using ih hk

theorem dlookup_map_replace_ne {β : Type} (d : List (String × β)) (k : String) (v : β)
    (f : String) (hf : f ≠ k) :
    dlookup (d.map (fun p => if p.1 = k then (k, v) else p)) f = dlookup d f := by
  induction d with
  | nil => simp [dlookup]
  | cons p rest ih =>
    by_cases h : p.1 = k
    · have : ¬ k = f := fun hk => hf hk.symm
      simp [dlookup, h, this, hf.symm, ih]
    · simp only [List.map_cons, if_neg h]
      by_cases hp : p.1 = f
      · simp [dlookup, hp]
      · simp [dlookup, hp, ih]

theorem dlookup_dictUpdate_self {β : Type} (d : List (String × β)) (k : String) (v : β) :
    dlookup (dictUpdate d k v) k = some v := by
  unfold dictUpdate
  by_cases hk : k ∈ d.map Prod.fst
  · rw [if_pos hk]
    exact dlookup_map_replace_self d k v hk
  · rw [if_neg hk, dlookup_append_of_not_mem d _ k hk]
    simp [dlookup]

theorem dlookup_dictUpdate_ne {β : Type} (d : List (String × β)) (k : String) (v : β)
    (f : String) (hf : f ≠ k) : dlookup (dictUpdate d k v) f = dlookup d f := by
  unfold dictUpdate
  by_cases hk : k ∈ d.map Prod.fst
  · rw [if_pos hk]
    exact dlookup_map_replace_ne d k v f hf
  · rw [if_neg hk]
    induction d with
    | nil =>
      simp only [List.nil_append, dlookup]
      rw [if_neg (fun h => hf h.symm)]
    | cons p rest ih =>
      by_cases hp : p.1 = f
      · simp [dlookup, hp]
      · simp only [List.map_cons, List.mem_cons, not_or] at hk
        simpa [dlookup, hp] using ih hk.2

theorem mem_keys_dictUpdate {β : Type} (d : List (String × β)) (k : String) (v : β)
    (f : String) :
    f ∈ (dictUpdate d k v).map Prod.fst ↔ f ∈ d.map Prod.fst ∨ f = k := by
  unfold dictUpdate
  by_cases hk : k ∈ d.map Prod.fst
  · rw [if_pos hk]
    simp only [List.map_map, List.mem_map, Function.comp]
    constructor
    · rintro ⟨p, hp, hpf⟩
      by_cases h : p.1 = k
      · right
        rw [if_pos h] at hpf
        exact hpf.symm
      · left
        rw [if_neg h] at hpf
        exact ⟨p, hp, hpf⟩
    · rintro (⟨p, hp, hpf⟩ | rfl)
      · refine ⟨p, hp, ?_⟩
        by_cases h : p.1 = k
        · rw [if_pos h]
          rw [← hpf, h]
        · rw [if_neg h]
          exact hpf
      · obtain ⟨p, hp, hpf⟩ := List.mem_map.mp hk
        exact ⟨p, hp, by rw [if_pos hpf]⟩
  · rw [if_neg hk]
    simp

/-! ### Feature classifier (C4, C9) -/

theorem dedup_length_eq_iff_nodup (l : List String) :
    l.dedup.length = l.length ↔ l.Nodup := by
  constructor
  · intro h
    have heq := (List.dedup_sublist l).eq_of_length h
    rw [← heq]
    exact List.nodup_dedup l
  · intro h
    rw [List.dedup_eq_self.mpr h]

/-- C4: for every non-empty sequence of feature values with `d` distinct
values, the classifier returns Same when `d = 1`, Different when `d`
equals the sequence length (equivalently, the values are pairwise
distinct), and the NotAMatch sentinel otherwise; a single value is
trivially Same. -/
theorem c4_feature_classifier (l : List String) (hne : l ≠ []) :
    (l.dedup.length = 1 → is_feature_a_set l = FeatureMatch.same) ∧
    (l.dedup.length ≠ 1 → l.dedup.length = l.length →
      is_feature_a_set l = FeatureMatch.different) ∧
    (l.dedup.length ≠ 1 → l.dedup.length ≠ l.length →
      is_feature_a_set l = FeatureMatch.notAMatch) ∧
    (l.dedup.length = l.length ↔ l.Nodup) ∧
    (l.length = 1 → is_feature_a_set l = FeatureMatch.same) := by
  refine ⟨?_, ?_, ?_, dedup_length_eq_iff_nodup l, ?_⟩
  · intro h
    simp [is_feature_a_set, h]
  · intro h1 h2
    simp only [is_feature_a_set]
    rw [if_neg h1, if_pos h2]
  · intro h1 h2
    simp only [is_feature_a_set]
    rw [if_neg h1, if_neg h2]
  · intro h
    obtain ⟨a, rfl⟩ := List.length_eq_one.mp h
    simp [is_feature_a_set]

/-- Witness for C4 at concrete inputs. -/
theorem c4_feature_classifier_witness :
    (["a", "a"] : List String) ≠ [] ∧ (["a", "a"] : List String).dedup.length = 1 ∧
    is_feature_a_set ["a", "a"] = FeatureMatch.same :=
  ⟨by decide, by decide, (c4_feature_classifier ["a", "a"] (by decide)).1 (by decide)⟩

/-- C9: the feature classifier depends only on the multiset of its inputs:
permuting the value sequence does not change the classification. -/
theorem c9_classifier_permutation_invariant (l l2 : List String) (h : l.Perm l2) :
    is_feature_a_set l = is_feature_a_set l2 := by
  have hd := (List.Perm.dedup h).length_eq
  have hl := h.length_eq
  simp [is_feature_a_set, hd, hl]

/-- Witness for C9 at a concrete permutation. -/
theorem c9_classifier_permutation_invariant_witness :
    (["a", "b", "b"] : List String).Perm ["b", "a", "b"] ∧
    is_feature_a_set ["a", "b", "b"] = is_feature_a_set ["b", "a", "b"] :=
  ⟨by decide, c9_classifier_permutation_invariant _ _ (by decide)⟩

/-! ### Compatibility and equality (C7, C8) -/

theorem pySetDiff_eq_nil_iff (a b : List String) :
    pySetDiff a b = [] ↔ ∀ x ∈ a, x ∈ b := by
  simp [pySetDiff, List.filter_eq_nil_iff]

theorem compatible_iff (c : Card) (other : Sum Card (List String)) :
    Card.compatible c other = true ↔
      ∀ f, (f ∈ c.get_feature_names ↔ f ∈ otherNames other) := by
  unfold Card.compatible
  rw [List.isEmpty_iff, List.append_eq_nil, pySetDiff_eq_nil_iff, pySetDiff_eq_nil_iff]
  constructor
  · rintro ⟨h1, h2⟩ f
    exact ⟨fun hf => h1 f hf, fun hf => h2 f hf⟩
  · intro h
    exact ⟨fun f hf => (h f).mp hf, fun f hf => (h f).mpr hf⟩

/-- C8: `compatible` is true iff the symmetric difference of the two
feature-name sets is empty (so any strict superset or subset of names is
incompatible), works against a card or a bare name list, and depends only
on the feature names, never on the values. -/
theorem c8_card_compatible (c c2 : Card) (other : Sum Card (List String))
    (hnames : c.get_feature_names = c2.get_feature_names) :
    (Card.compatible c other = true ↔
      ∀ f, (f ∈ c.get_feature_names ↔ f ∈ otherNames other)) ∧
    (((∃ f ∈ otherNames other, f ∉ c.get_feature_names) ∨
      (∃ f ∈ c.get_feature_names, f ∉ otherNames other)) →
      Card.compatible c other = false) ∧
    Card.compatible c other = Card.compatible c2 other ∧
    (∀ d : Card, Card.compatible d (Sum.inl c) = Card.compatible d (Sum.inl c2)) := by
  refine ⟨compatible_iff c other, ?_, ?_, ?_⟩
  · rintro (⟨f, hf, hnot⟩ | ⟨f, hf, hnot⟩)
    · cases hcomp : Card.compatible c other with
      | false => rfl
      | true => exact absurd (((compatible_iff c other).mp hcomp f).mpr hf) hnot
    · cases hcomp : Card.compatible c other with
      | false => rfl
      | true => exact absurd (((compatible_iff c other).mp hcomp f).mp hf) hnot
  · unfold Card.compatible
    rw [hnames]
  · intro d
    unfold Card.compatible
    simp only [otherNames, hnames]

/-- Witness for C8: two cards with the same schema but different values. -/
theorem c8_card_compatible_witness :
    (Card.mk [("Color", "red")]).get_feature_names =
      (Card.mk [("Color", "blue")]).get_feature_names ∧
    Card.compatible (Card.mk [("Color", "red")]) (Sum.inr ["Color"]) =
      Card.compatible (Card.mk [("Color", "blue")]) (Sum.inr ["Color"]) := by
  refine ⟨by decide, ?_⟩
  exact (c8_card_compatible (Card.mk [("Color", "red")]) (Card.mk [("Color", "blue")])
    (Sum.inr ["Color"]) (by decide)).2.2.1

/-- C7: `equals` is false whenever the two cards are not compatible; for
compatible cards it is true iff every feature name maps to an equal value
in both; and every card equals itself. -/
theorem c7_card_equals (a b : Card) :
    (Card.compatible a (Sum.inl b) = false → cardEq a b = false) ∧
    (Card.compatible a (Sum.inl b) = true →
      (cardEq a b = true ↔
        ∀ f ∈ a.get_feature_names, dlookup a.features f = dlookup b.features f)) ∧
    cardEq a a = true := by
  refine ⟨?_, ?_, ?_⟩
  · intro h
    simp [cardEq, h]
  · intro h
    simp only [cardEq, h, if_true, List.all_eq_true, beq_iff_eq]
    constructor
    · intro hall f hf
      obtain ⟨p, hp, hpf⟩ := List.mem_map.mp hf
      exact hpf ▸ hall p hp
    · intro hall p hp
      exact hall p.1 (List.mem_map.mpr ⟨p, hp, rfl⟩)
  · have hcomp : Card.compatible a (Sum.inl a) = true :=
      (compatible_iff a (Sum.inl a)).mpr (fun f => Iff.rfl)
    simp [cardEq, hcomp]

/-- Witness for C7 at concrete cards. -/
theorem c7_card_equals_witness :
    Card.compatible (Card.mk [("Color", "red")]) (Sum.inl (Card.mk [("Color", "red")])) = true ∧
    cardEq (Card.mk [("Color", "red")]) (Card.mk [("Color", "red")]) = true :=
  ⟨by decide, (c7_card_equals (Card.mk [("Color", "red")]) (Card.mk [("Color", "red")])).2.2⟩

/-! ### Combination generator (C2) -/

theorem sum_range_map_choose (m n : Nat) :
    ((List.range m).map (fun i => Nat.choose (m - (i + 1)) n)).sum = Nat.choose m (n + 1) := by
  induction m with
  | zero => simp
  | succ m ih =>
    rw [List.range_succ_eq_map, List.map_cons, List.map_map]
    have h1 : ((fun i => Nat.choose (m + 1 - (i + 1)) n) ∘ Nat.succ)
        = fun i => Nat.choose (m - (i + 1)) n := by
      funext i
      simp [Function.comp, Nat.succ_sub_succ]
    rw [h1, List.sum_cons, ih, Nat.choose_succ_succ]
    simp

theorem length_generate_card_combos {α : Type} [Inhabited α] (items : List α) (n : Nat) :
    (generate_card_combos items n).length = Nat.choose items.length n := by
  induction n generalizing items with
  | zero => simp [generate_card_combos]
  | succ n ih =>
    rw [generate_card_combos, List.length_flatMap]
    have h1 : (List.map (List.length ∘ fun i =>
        (generate_card_combos (items.drop (i + 1)) n).map
          (fun item => items.getD i default :: item)) (List.range items.length))
        = (List.range items.length).map (fun i => Nat.choose (items.length - (i + 1)) n) := by
      apply List.map_congr_left
      intro i _hi
      simp [Function.comp, ih, List.length_drop]
    rw [h1, sum_range_map_choose]

theorem mem_generate_card_combos {α : Type} [Inhabited α] (items : List α) (n : Nat)
    (c : List α) (hc : c ∈ generate_card_combos items n) :
    c.length = n ∧ c.Sublist items := by
  induction n generalizing items c with
  | zero =>
    simp only [generate_card_combos, List.mem_singleton] at hc
    subst hc
    exact ⟨rfl, List.nil_sublist items⟩
  | succ n ih =>
    rw [generate_card_combos] at hc
    simp only [List.mem_flatMap, List.mem_map, List.mem_range] at hc
    obtain ⟨i, hi, item, hitem, rfl⟩ := hc
    obtain ⟨hlen, hsub⟩ := ih (items.drop (i + 1)) item hitem
    refine ⟨by simp [hlen], ?_⟩
    have hcons : items.getD i default :: items.drop (i + 1) = items.drop i := by
      rw [List.getD_eq_getElem items default hi]
      exact List.getElem_cons_drop items i hi
    have h1 : (items.getD i default :: item).Sublist (items.getD i default :: items.drop (i + 1)) :=
      List.Sublist.cons₂ _ hsub
    rw [hcons] at h1
    exact h1.trans (List.drop_sublist i items)

theorem pairwise_lex_generate_card_combos {α : Type} [Inhabited α] (r : α → α → Prop)
    (items : List α) (n : Nat) (hitems : items.Pairwise r) :
    (generate_card_combos items n).Pairwise (List.Lex r) := by
  induction n generalizing items with
  | zero => simp [generate_card_combos]
  | succ n ih =>
    rw [generate_card_combos, List.flatMap_def, List.pairwise_flatten]
    constructor
    · intro lblock hblock
      obtain ⟨i, _hi, rfl⟩ := List.mem_map.mp hblock
      rw [List.pairwise_map]
      have hdrop : (items.drop (i + 1)).Pairwise r :=
        List.Pairwise.sublist (List.drop_sublist (i + 1) items) hitems
      exact (ih _ hdrop).imp (fun h => List.Lex.cons h)
    · rw [List.pairwise_map, List.pairwise_iff_getElem]
      intro a b ha hb hab
      rw [List.length_range] at ha hb
      intro x hx y hy
      rw [List.getElem_range] at hx hy
      obtain ⟨t1, _ht1, rfl⟩ := List.mem_map.mp hx
      obtain ⟨t2, _ht2, rfl⟩ := List.mem_map.mp hy
      rw [List.getD_eq_getElem items default ha, List.getD_eq_getElem items default hb]
      exact List.Lex.rel (List.pairwise_iff_getElem.mp hitems a b ha hb hab)

/-- C2: over the position sequence `0, ..., m-1` and any size `n ≤ m`, the
combination generator yields exactly `C(m, n)` selections, every selection
is a strictly increasing sequence of `n` positions, the selections come in
lexicographic order, and size 0 yields exactly the empty selection. -/
theorem c2_combination_generator (m n : Nat) (hnm : n ≤ m) :
    (generate_card_combos (List.range m) n).length = Nat.choose m n ∧
    (∀ c ∈ generate_card_combos (List.range m) n, c.length = n ∧ c.Pairwise (· < ·)) ∧
    (generate_card_combos (List.range m) n).Pairwise (List.Lex (· < ·)) ∧
    generate_card_combos (List.range m) 0 = [[]] := by
  refine ⟨?_, ?_, ?_, rfl⟩
  · rw [length_generate_card_combos, List.length_range]
  · intro c hc
    obtain ⟨hlen, hsub⟩ := mem_generate_card_combos _ _ _ hc
    exact ⟨hlen, List.Pairwise.sublist hsub (List.pairwise_lt_range m)⟩
  · exact pairwise_lex_generate_card_combos _ _ _ (List.pairwise_lt_range m)

/-- Witness for C2 at `m = 4`, `n = 2`. -/
theorem c2_combination_generator_witness :
    2 ≤ 4 ∧ (generate_card_combos (List.range 4) 2).length = Nat.choose 4 2 :=
  ⟨by decide, (c2_combination_generator 4 2 (by decide)).1⟩

/-- C1: the code crashes instead of adopting the schema.  On a deck whose
schema is not yet established (`features` is `None`, the state produced by
`CardDeck.__init__` without a file), `add_card` evaluates
`len(self.features)` and raises `TypeError` (modelled as `none`) instead
of adopting the card's schema, appending the card and returning a boolean. -/
theorem c1_add_card_fresh_deck_raises :
    CardDeck.init.features = none ∧
    add_card CardDeck.init (Card.mk [("Color", "red")]) = none := by decide

/-! ### Solve on pathological sizes (C6) -/

/-- C6: on a deck with an established schema and a non-empty card list,
`solve 0` returns an empty result collection, and so does `solve k` for
every `k` larger than the deck size; neither is an error (`none`). -/
theorem c6_solve_pathological_k (deck : CardDeck) (feats : List String) (cards : List Card)
    (h1 : deck.features = some feats) (h2 : deck.cards = some cards) (hne : cards ≠ []) :
    solve deck 0 = some ({ deck with sets := [] }, []) ∧
    (∀ k, cards.length < k → solve deck k = some ({ deck with sets := [] }, [])) := by
  constructor
  · simp [solve, h1, h2, generate_card_combos, is_set, List.foldlM]
  · intro k hk
    have hcomb : generate_card_combos (List.range cards.length) k = [] := by
      apply List.length_eq_zero.mp
      rw [length_generate_card_combos, List.length_range]
      exact Nat.choose_eq_zero_of_lt hk
    simp [solve, h1, h2, hcomb, List.foldlM]

/-- Witness for C6 on a one-card deck with `k = 0` and `k = 2`. -/
theorem c6_solve_pathological_k_witness :
    (CardDeck.mk (some ["Color"]) (some [Card.mk [("Color", "red")]]) [] [] []).features
      = some ["Color"] ∧
    (CardDeck.mk (some ["Color"]) (some [Card.mk [("Color", "red")]]) [] [] []).cards
      = some [Card.mk [("Color", "red")]] ∧
    ([Card.mk [("Color", "red")]] : List Card) ≠ [] ∧
    solve (CardDeck.mk (some ["Color"]) (some [Card.mk [("Color", "red")]]) [] [] []) 0
      = some (CardDeck.mk (some ["Color"]) (some [Card.mk [("Color", "red")]]) [] [] [], []) ∧
    solve (CardDeck.mk (some ["Color"]) (some [Card.mk [("Color", "red")]]) [] [] []) 2
      = some (CardDeck.mk (some ["Color"]) (some [Card.mk [("Color", "red")]]) [] [] [], []) := by
  have h := c6_solve_pathological_k
    (CardDeck.mk (some ["Color"]) (some [Card.mk [("Color", "red")]]) [] [] [])
    ["Color"] [Card.mk [("Color", "red")]] rfl rfl (by decide)
  exact ⟨rfl, rfl, by decide, h.1, h.2 2 (by decide)⟩

/-! ### Group matcher loop (C5, C3) -/

theorem colVals_isSome (cards : List Card) (f : String)
    (h : ∀ card ∈ cards, (dlookup card.features f).isSome = true) :
    (colVals cards f).isSome = true := by
  induction cards with
  | nil => simp [colVals]
  | cons c rest ih =>
    obtain ⟨v, hv⟩ := Option.isSome_iff_exists.mp (h c (List.mem_cons_self c rest))
    obtain ⟨vs, hvs⟩ := Option.isSome_iff_exists.mp
      (ih (fun card hc => h card (List.mem_cons_of_mem _ hc)))
    simp [colVals, hv, hvs]

theorem is_set_loop_cons_reject (cards : List Card) (g : String) (rest : List String)
    (acc : List (String × FeatureMatch)) (vals : List String)
    (hv : colVals cards g = some vals)
    (hcl : is_feature_a_set vals = FeatureMatch.notAMatch) :
    is_set_loop cards (g :: rest) acc = SetResult.noMatch := by
  simp only [is_set_loop, hv, hcl]

theorem is_set_loop_cons_step (cards : List Card) (g : String) (rest : List String)
    (acc : List (String × FeatureMatch)) (vals : List String)
    (hv : colVals cards g = some vals)
    (hne : is_feature_a_set vals ≠ FeatureMatch.notAMatch) :
    is_set_loop cards (g :: rest) acc
      = is_set_loop cards rest (dictUpdate acc g (is_feature_a_set vals)) := by
  simp only [is_set_loop, hv]

theorem is_set_loop_ne_keyError (cards : List Card) :
    ∀ feats acc, (∀ g ∈ feats, (colVals cards g).isSome = true) →
      is_set_loop cards feats acc ≠ SetResult.keyError := by
  intro feats
  induction feats with
  | nil =>
    intro acc _
    simp [is_set_loop]
  | cons g rest ih =>
    intro acc hall
    obtain ⟨vals, hv⟩ := Option.isSome_iff_exists.mp (hall g (List.mem_cons_self g rest))
    by_cases hna : is_feature_a_set vals = FeatureMatch.notAMatch
    · rw [is_set_loop_cons_reject cards g rest acc vals hv hna]
      simp
    · rw [is_set_loop_cons_step cards g rest acc vals hv hna]
      exact ih _ (fun g2 hg => hall g2 (List.mem_cons_of_mem _ hg))

theorem is_set_loop_reject (cards : List Card) (f : String)
    (hcl : classifyColumn cards f = some FeatureMatch.notAMatch) :
    ∀ feats acc, (∀ g ∈ feats, (colVals cards g).isSome = true) → f ∈ feats →
      is_set_loop cards feats acc = SetResult.noMatch := by
  intro feats
  induction feats with
  | nil =>
    intro acc _ hf
    cases hf
  | cons g rest ih =>
    intro acc hall hf
    obtain ⟨vals, hv⟩ := Option.isSome_iff_exists.mp (hall g (List.mem_cons_self g rest))
    by_cases hna : is_feature_a_set vals = FeatureMatch.notAMatch
    · exact is_set_loop_cons_reject cards g rest acc vals hv hna
    · rw [is_set_loop_cons_step cards g rest acc vals hv hna]
      rcases List.mem_cons.mp hf with rfl | hfr
      · exfalso
        simp [classifyColumn, hv] at hcl
        exact hna hcl
      · exact ih _ (fun g2 hg => hall g2 (List.mem_cons_of_mem _ hg)) hfr

theorem is_set_loop_success (cards : List Card) :
    ∀ feats acc types, is_set_loop cards feats acc = SetResult.isMatch types →
      (∀ f, f ∉ feats → dlookup types f = dlookup acc f) ∧
      (∀ f, f ∈ types.map Prod.fst ↔ (f ∈ acc.map Prod.fst ∨ f ∈ feats)) ∧
      (∀ f ∈ feats, ∃ t, dlookup types f = some t ∧ classifyColumn cards f = some t ∧
        t ≠ FeatureMatch.notAMatch) := by
  intro feats
  induction feats with
  | nil =>
    intro acc types h
    rw [is_set_loop] at h
    injection h with h
    subst h
    exact ⟨fun f _ => rfl, fun f => by simp, fun f hf => absurd hf (List.not_mem_nil f)⟩
  | cons g rest ih =>
    intro acc types h
    cases hv : colVals cards g with
    | none =>
      rw [is_set_loop, hv] at h
      cases h
    | some vals =>
      by_cases hna : is_feature_a_set vals = FeatureMatch.notAMatch
      · rw [is_set_loop_cons_reject cards g rest acc vals hv hna] at h
        cases h
      · rw [is_set_loop_cons_step cards g rest acc vals hv hna] at h
        obtain ⟨hpres, hkeys, hmem⟩ := ih _ _ h
        refine ⟨?_, ?_, ?_⟩
        · intro f hf
          simp only [List.mem_cons, not_or] at hf
          rw [hpres f hf.2, dlookup_dictUpdate_ne _ _ _ _ hf.1]
        · intro f
          rw [hkeys f, mem_keys_dictUpdate]
          simp only [List.mem_cons]
          tauto
        · intro f hf
          rcases List.mem_cons.mp hf with rfl | hfr
          · by_cases hgr : f ∈ rest
            · exact hmem f hgr
            · have hp := hpres f hgr
              rw [dlookup_dictUpdate_self] at hp
              exact ⟨is_feature_a_set vals, hp, by simp [classifyColumn, hv], hna⟩
          · exact hmem f hfr

/-- C5: the group matcher fails with the falsy sentinel (never an
exception) on the empty group; on a non-empty pairwise-compatible group it
returns the sentinel whenever some feature column classifies as
NotAMatch, and on success its result maps exactly the feature names of the
shared schema, each to its own Same-or-Different classification. -/
theorem c5_group_matcher (c0 : Card) (tl : List Card)
    (hcompat : ∀ card ∈ c0 :: tl, Card.compatible card (Sum.inl c0) = true) :
    is_set ([] : List Card) = SetResult.noMatch ∧
    ((∃ f ∈ c0.get_feature_names,
        classifyColumn (c0 :: tl) f = some FeatureMatch.notAMatch) →
      is_set (c0 :: tl) = SetResult.noMatch) ∧
    (∀ types, is_set (c0 :: tl) = SetResult.isMatch types →
      (∀ f, f ∈ types.map Prod.fst ↔ f ∈ c0.get_feature_names) ∧
      (∀ f ∈ c0.get_feature_names, ∃ t, dlookup types f = some t ∧
        classifyColumn (c0 :: tl) f = some t ∧
        (t = FeatureMatch.same ∨ t = FeatureMatch.different))) := by
  have hsome : ∀ f ∈ c0.get_feature_names, (colVals (c0 :: tl) f).isSome = true := by
    intro f hf
    apply colVals_isSome
    intro card hc
    rw [dlookup_isSome_iff]
    have hiff := (compatible_iff card (Sum.inl c0)).mp (hcompat card hc) f
    simp only [otherNames] at hiff
    exact hiff.mpr hf
  refine ⟨rfl, ?_, ?_⟩
  · rintro ⟨f, hf, hcl⟩
    exact is_set_loop_reject (c0 :: tl) f hcl c0.get_feature_names [] hsome hf
  · intro types h
    obtain ⟨_hpres, hkeys, hmem⟩ := is_set_loop_success (c0 :: tl) c0.get_feature_names [] types h
    refine ⟨?_, ?_⟩
    · intro f
      rw [hkeys f]
      simp
    · intro f hf
      obtain ⟨t, h1, h2, h3⟩ := hmem f hf
      refine ⟨t, h1, h2, ?_⟩
      cases t with
      | same => exact Or.inl rfl
      | different => exact Or.inr rfl
      | notAMatch => exact absurd rfl h3

/-- Witness for C5 on a concrete compatible pair of cards. -/
theorem c5_group_matcher_witness :
    (∀ card ∈ [Card.mk [("Color", "red"), ("Shape", "dot")],
        Card.mk [("Color", "blue"), ("Shape", "dot")]],
      Card.compatible card (Sum.inl (Card.mk [("Color", "red"), ("Shape", "dot")])) = true) ∧
    is_set ([] : List Card) = SetResult.noMatch :=
  ⟨by decide, (c5_group_matcher (Card.mk [("Color", "red"), ("Shape", "dot")])
    [Card.mk [("Color", "blue"), ("Shape", "dot")]] (by decide)).1⟩

/-! ### Deck distinct-value accumulation (C10) -/

theorem add_feature_value_self (fv : List (String × List String)) (f v : String) :
    v ∈ (dlookup (add_feature_value fv f v) f).getD [] := by
  by_cases h : v ∈ (dlookup fv f).getD []
  · simpa [add_feature_value, h] using h
  · simp [add_feature_value, h, dlookup_dictUpdate_self]

theorem add_feature_value_mono (fv : List (String × List String)) (g w f v : String)
    (h : v ∈ (dlookup fv f).getD []) :
    v ∈ (dlookup (add_feature_value fv g w) f).getD [] := by
  by_cases hw : w ∈ (dlookup fv g).getD []
  · simpa [add_feature_value, hw] using h
  · simp only [add_feature_value, if_neg hw]
    by_cases hfg : f = g
    · subst hfg
      rw [dlookup_dictUpdate_self]
      simp only [Option.getD_some]
      exact List.mem_append_left _ h
    · rw [dlookup_dictUpdate_ne _ _ _ _ hfg]
      exact h

theorem foldl_add_feature_value_mono (l : List (String × String)) :
    ∀ fv f v, v ∈ (dlookup fv f).getD [] →
      v ∈ (dlookup (l.foldl (fun fv2 p => add_feature_value fv2 p.1 p.2) fv) f).getD [] := by
  induction l with
  | nil => exact fun fv f v h => h
  | cons q rest ih =>
    intro fv f v h
    exact ih _ f v (add_feature_value_mono fv q.1 q.2 f v h)

theorem foldl_add_feature_value_mem (l : List (String × String)) :
    ∀ fv p, p ∈ l →
      p.2 ∈ (dlookup (l.foldl (fun fv2 q => add_feature_value fv2 q.1 q.2) fv) p.1).getD [] := by
  induction l with
  | nil =>
    intro fv p hp
    cases hp
  | cons q rest ih =>
    intro fv p hp
    rcases List.mem_cons.mp hp with rfl | hpr
    · exact foldl_add_feature_value_mono rest _ p.1 p.2 (add_feature_value_self fv p.1 p.2)
    · exact ih _ p hpr

theorem load_line_inv (d : CardDeck) (line : String)
    (hinv : deckInv d) (hside : d.features.getD [] = [] → d.cards.getD [] = []) :
    deckInv (load_line d line) ∧
    ((load_line d line).features.getD [] = [] → (load_line d line).cards.getD [] = []) := by
  unfold load_line
  by_cases hcomment : (pyStrip line).data.length = 0 ∨ (pyStrip line).data.head? = some '#'
  · rw [if_pos hcomment]
    exact ⟨hinv, hside⟩
  · rw [if_neg hcomment]
    by_cases hhdr : (d.features.getD []).isEmpty = true
    · rw [if_pos hhdr]
      have hcards : d.cards.getD [] = [] := hside (List.isEmpty_iff.mp hhdr)
      refine ⟨?_, ?_⟩
      · intro card hcard
        rw [hcards] at hcard
        cases hcard
      · intro _
        exact hcards
    · rw [if_neg hhdr]
      by_cases hwidth : (pySplitTab (pyStrip line)).length ≠ (d.features.getD []).length
      · rw [if_pos hwidth]
        exact ⟨hinv, hside⟩
      · rw [if_neg hwidth]
        refine ⟨?_, ?_⟩
        · intro card hcard p hp
          simp only [Option.getD_some] at hcard
          rcases List.mem_append.mp hcard with hold | hnew
          · exact foldl_add_feature_value_mono _ _ p.1 p.2 (hinv card hold p hp)
          · rcases List.mem_singleton.mp hnew with rfl
            exact foldl_add_feature_value_mem _ _ p hp
        · intro hfeat
          exact absurd (List.isEmpty_iff.mpr hfeat) hhdr

theorem foldl_load_line_inv (lines : List String) :
    ∀ d, deckInv d → (d.features.getD [] = [] → d.cards.getD [] = []) →
      deckInv (lines.foldl load_line d) := by
  induction lines with
  | nil => exact fun d hinv _ => hinv
  | cons line rest ih =>
    intro d hinv hside
    obtain ⟨hinv2, hside2⟩ := load_line_inv d line hinv hside
    exact ih _ hinv2 hside2

/-- The counterexample to C10 as stated: a successful `add_card` leaves
`feature_values` untouched, so the freshly appended card's value `"red"`
is missing from the deck's distinct-value set for `"Color"`. -/
theorem c10_counterexample_add_card :
    add_card (CardDeck.mk (some ["Color"]) (some []) [] [("Color", [])] [])
        (Card.mk [("Color", "red")])
      = some (CardDeck.mk (some ["Color"]) (some [Card.mk [("Color", "red")]]) []
          [("Color", [])] [], true) ∧
    ¬ deckInv (CardDeck.mk (some ["Color"]) (some [Card.mk [("Color", "red")]]) []
        [("Color", [])] []) := by
  constructor
  · decide
  · intro h
    have h2 := h (Card.mk [("Color", "red")]) (by decide) ("Color", "red") (by decide)
    simp [dlookup] at h2

/-- C10 (amended): loading a file maintains the per-feature distinct-value
invariant — every feature value of every card in the deck is recorded in
`feature_values` — but `add_card` appends the card without updating
`feature_values` at all, so the invariant is not maintained by `add_card`. -/
theorem c10_feature_values_amended :
    (∀ deck lines, deckInv (load_file deck lines)) ∧
    (∀ deck card r, add_card deck card = some r →
      r.1.feature_values = deck.feature_values) := by
  constructor
  · intro deck lines
    apply foldl_load_line_inv
    · intro card hcard
      cases hcard
    · intro _
      rfl
  · intro deck card r h
    simp only [add_card] at h
    split at h
    · cases h
    · split at h
      · split at h
        · cases h
        · injection h with h
          subst h
          rfl
      · split at h
        · split at h
          · cases h
          · injection h with h
            subst h
            rfl
        · injection h with h
          subst h
          rfl

/-- Witness for C10 (amended): a concrete load and a concrete `add_card`. -/
theorem c10_feature_values_amended_witness :
    deckInv (load_file CardDeck.init []) ∧
    add_card (CardDeck.mk (some ["Color"]) (some []) [] [("Color", [])] [])
        (Card.mk [("Color", "red")])
      = some (CardDeck.mk (some ["Color"]) (some [Card.mk [("Color", "red")]]) []
          [("Color", [])] [], true) ∧
    (CardDeck.mk (some ["Color"]) (some [Card.mk [("Color", "red")]]) []
        [("Color", [])] []).feature_values
      = (CardDeck.mk (some ["Color"]) (some []) [] [("Color", [])] []).feature_values :=
  ⟨c10_feature_values_amended.1 CardDeck.init [], by decide,
    c10_feature_values_amended.2
      (CardDeck.mk (some ["Color"]) (some []) [] [("Color", [])] [])
      (Card.mk [("Color", "red")])
      (CardDeck.mk (some ["Color"]) (some [Card.mk [("Color", "red")]]) []
        [("Color", [])] [], true)
      (by decide)⟩

/-! ### Solve characterization (C3) -/

theorem is_set_combo_ne_keyError (cards : List Card)
    (hschema : ∀ c ∈ cards, ∀ c2 ∈ cards, Card.compatible c (Sum.inl c2) = true)
    (combo : List Nat) (hlt : ∀ p ∈ combo, p < cards.length) :
    is_set (combo.map (fun position => cards.getD position defaultCard))
      ≠ SetResult.keyError := by
  cases combo with
  | nil => simp [is_set]
  | cons p ps =>
    have hmem : ∀ q ∈ p :: ps, cards.getD q defaultCard ∈ cards := by
      intro q hq
      rw [List.getD_eq_getElem cards defaultCard (hlt q hq)]
      exact List.getElem_mem _
    simp only [List.map_cons]
    show is_set_loop (cards.getD p defaultCard :: ps.map (fun position =>
      cards.getD position defaultCard)) (cards.getD p defaultCard).get_feature_names []
      ≠ SetResult.keyError
    apply is_set_loop_ne_keyError
    intro g hg
    apply colVals_isSome
    intro card hcard
    rw [dlookup_isSome_iff]
    have hcard_mem : card ∈ cards := by
      rcases List.mem_cons.mp hcard with rfl | hmm
      · exact hmem p (List.mem_cons_self p ps)
      · obtain ⟨q, hq, rfl⟩ := List.mem_map.mp hmm
        exact hmem q (List.mem_cons_of_mem _ hq)
    have hcompat := hschema card hcard_mem _ (hmem p (List.mem_cons_self p ps))
    have hiff := (compatible_iff card (Sum.inl (cards.getD p defaultCard))).mp hcompat g
    simp only [otherNames] at hiff
    exact hiff.mpr hg

theorem solve_foldlM_eq (cards : List Card) :
    ∀ (combosL : List (List Nat)) (acc : List CardSet),
      (∀ combo ∈ combosL,
        is_set (combo.map (fun position => cards.getD position defaultCard))
          ≠ SetResult.keyError) →
      combosL.foldlM (fun (acc2 : List CardSet) (combo : List Nat) =>
          match is_set (combo.map (fun position => cards.getD position defaultCard)) with
          | SetResult.keyError => none
          | SetResult.noMatch => some acc2
          | SetResult.isMatch [] => some acc2
          | SetResult.isMatch _ => some (acc2 ++ [CardSet.init
              (combo.map (fun position => cards.getD position defaultCard)) (some combo)]))
        acc
      = some (acc ++ combosL.filterMap (fun combo =>
          match is_set (combo.map (fun position => cards.getD position defaultCard)) with
          | SetResult.isMatch [] => none
          | SetResult.isMatch _ => some (CardSet.init
              (combo.map (fun position => cards.getD position defaultCard)) (some combo))
          | _ => none)) := by
  intro combosL
  induction combosL with
  | nil =>
    intro acc _
    simp
  | cons combo rest ih =>
    intro acc hall
    simp only [List.foldlM_cons, List.filterMap_cons]
    cases hs : is_set (combo.map (fun position => cards.getD position defaultCard)) with
    | keyError => exact absurd hs (hall combo (List.mem_cons_self combo rest))
    | noMatch => exact ih acc (fun c hc => hall c (List.mem_cons_of_mem _ hc))
    | isMatch types =>
      cases types with
      | nil => exact ih acc (fun c hc => hall c (List.mem_cons_of_mem _ hc))
      | cons t ts =>
        show (List.foldlM _ (acc ++ [CardSet.init
            (combo.map (fun position => cards.getD position defaultCard)) (some combo)]) rest)
          = _
        rw [ih _ (fun c hc => hall c (List.mem_cons_of_mem _ hc))]
        simp

/-- C3 (amended): `solve k` enumerates every size-`k` position combination
over the whole deck and returns, discarding any previous result
collection, exactly one record per combination whose matcher result is
truthy — a non-empty classification mapping; an empty mapping (a
zero-feature lead card) is falsy and skipped like a non-match — in the
order the generator produced; each record carries the ascending positions
and their cards, but its classification slot is left `none` rather than
holding the matcher's per-feature map. -/
theorem c3_solve_amended (deck : CardDeck) (feats : List String) (cards : List Card) (k : Nat)
    (h1 : deck.features = some feats) (h2 : deck.cards = some cards)
    (hschema : ∀ c ∈ cards, ∀ c2 ∈ cards, Card.compatible c (Sum.inl c2) = true) :
    solve deck k = some ({ deck with sets := solveSpecSets cards k }, solveSpecSets cards k) ∧
    (∀ s ∈ solveSpecSets cards k,
      (s.card_positions.getD []).Pairwise (· < ·) ∧
      s.cards = (s.card_positions.getD []).map (fun position => cards.getD position defaultCard) ∧
      (is_set s.cards).truthy = true ∧
      s.set_types = none) := by
  have hne : ∀ combo ∈ generate_card_combos (List.range cards.length) k,
      is_set (combo.map (fun position => cards.getD position defaultCard))
        ≠ SetResult.keyError := by
    intro combo hcombo
    apply is_set_combo_ne_keyError cards hschema combo
    intro p hp
    exact List.mem_range.mp ((mem_generate_card_combos _ _ _ hcombo).2.subset hp)
  constructor
  · simp only [solve, h1, h2]
    rw [solve_foldlM_eq cards _ [] hne]
    simp [solveSpecSets]
  · intro s hs
    obtain ⟨combo, hcombo, hfc⟩ := List.mem_filterMap.mp hs
    cases hs2 : is_set (combo.map (fun position => cards.getD position defaultCard)) with
    | keyError => exact absurd hs2 (hne combo hcombo)
    | noMatch =>
      rw [hs2] at hfc
      cases hfc
    | isMatch types =>
      cases types with
      | nil =>
        rw [hs2] at hfc
        cases hfc
      | cons t ts =>
        rw [hs2] at hfc
        injection hfc with hfc
        subst hfc
        have hpair : combo.Pairwise (· < ·) :=
          List.Pairwise.sublist (mem_generate_card_combos _ _ _ hcombo).2
            (List.pairwise_lt_range cards.length)
        exact ⟨by simpa [CardSet.init] using hpair, rfl,
          by simp only [CardSet.init, hs2, SetResult.truthy], rfl⟩

/-- Witness for C3 (amended) on a concrete one-card deck. -/
theorem c3_solve_amended_witness :
    (CardDeck.mk (some ["Color"]) (some [Card.mk [("Color", "red")]]) [] [] []).features
      = some ["Color"] ∧
    (CardDeck.mk (some ["Color"]) (some [Card.mk [("Color", "red")]]) [] [] []).cards
      = some [Card.mk [("Color", "red")]] ∧
    (∀ c ∈ [Card.mk [("Color", "red")]], ∀ c2 ∈ [Card.mk [("Color", "red")]],
      Card.compatible c (Sum.inl c2) = true) ∧
    solve (CardDeck.mk (some ["Color"]) (some [Card.mk [("Color", "red")]]) [] [] []) 1
      = some (CardDeck.mk (some ["Color"]) (some [Card.mk [("Color", "red")]])
          (solveSpecSets [Card.mk [("Color", "red")]] 1) [] [],
        solveSpecSets [Card.mk [("Color", "red")]] 1) :=
  ⟨rfl, rfl, by decide,
    (c3_solve_amended (CardDeck.mk (some ["Color"]) (some [Card.mk [("Color", "red")]]) [] [] [])
      ["Color"] [Card.mk [("Color", "red")]] 1 rfl rfl (by decide)).1⟩

/-- The counterexample to C3 as stated: the matcher accepts the singleton
group and returns the classification map `{Color: Same}`, yet the record
stored and returned by `solve` has `set_types = none` — the per-feature
classification map is not part of the Match Record. -/
theorem c3_counterexample_set_types_missing :
    is_set [Card.mk [("Color", "red")]]
      = SetResult.isMatch [("Color", FeatureMatch.same)] ∧
    solve (CardDeck.mk (some ["Color"]) (some [Card.mk [("Color", "red")]]) [] [] []) 1
      = some (CardDeck.mk (some ["Color"]) (some [Card.mk [("Color", "red")]])
          [CardSet.mk [Card.mk [("Color", "red")]] (some [0]) none] [] [],
        [CardSet.mk [Card.mk [("Color", "red")]] (some [0]) none]) := by decide

example : is_feature_a_set ["blue", "blue", "blue"] = FeatureMatch.same := by decide
example : is_feature_a_set ["blue", "green", "blue"] = FeatureMatch.notAMatch := by decide
example : is_feature_a_set ["blue", "red", "green"] = FeatureMatch.different := by decide
example : generate_card_combos (List.range 4) 2 =
    [[0, 1], [0, 2], [0, 3], [1, 2], [1, 3], [2, 3]] := by decide
example : generate_card_combos (List.range 3) 0 = [[]] := by decide
example : generate_card_combos (List.range 2) 3 = [] := by decide
example : add_card CardDeck.init (Card.mk [("Color", "red")]) = none := by decide
example : is_set [Card.mk [("Color", "red")], Card.mk [("Color", "blue")]] =
    SetResult.isMatch [("Color", FeatureMatch.different)] := by decide
example : is_set [] = SetResult.noMatch := by decide
example : is_set [Card.mk []] = SetResult.isMatch [] := by decide
example : (SetResult.isMatch []).truthy = false := by decide
example : solve (CardDeck.mk (some ["x"]) (some [Card.mk []]) [] [] []) 1
    = some (CardDeck.mk (some ["x"]) (some [Card.mk []]) [] [] [], []) := by decide
example :
    load_file CardDeck.init ["Color\tShape", "red\tdot", "# note", "blue\tdot"] =
      { features := some ["Color", "Shape"],
        cards := some [Card.mk [("Color", "red"), ("Shape", "dot")],
          Card.mk [("Color", "blue"), ("Shape", "dot")]],
        sets := [],
        feature_values := [("Color", ["red", "blue"]), ("Shape", ["dot"])],
        comments := ["# note"] } := by decide
